import Mathlib

/-!
Verification of the dtrace association-and-annotation engine.

The definitions below are a shallow embedding of the Python sources
`src/dtrace/associations.py` and `src/dtrace/importer.py`:
pandas tables become lists of rows, pandas Series become association
lists `List (ι × α)`, numeric matrices become `Matrix` over `ℚ` or
lists of columns, and external collaborators (the statsmodels
`multipletests` corrector, the sklearn `StandardScaler` square root,
the limix `scan` solver) become explicit function parameters, exactly
as the spec treats them (external collaborators with a contract).
-/

namespace Dtrace


/-! ## Basic list helpers (pandas arithmetic on Series) -/

/-- Sum-over-length mean of a list of rationals (`np.mean`); the mean of the
empty list is `0` (division by zero in `ℚ`). -/
def meanL (l : List ℚ) : ℚ := l.sum / l.length

/-- Population variance (`np.var`, ddof = 0), the quantity `StandardScaler`
divides by the square root of. -/
def varL (l : List ℚ) : ℚ := meanL (l.map (fun v => (v - meanL l) ^ 2))

/-- Dot product of two equally long lists (a row-by-row entry of `k.dot(k.T)`). -/
def dotL (a b : List ℚ) : ℚ := ((a.zip b).map (fun p => p.1 * p.2)).sum

/-- Association-list lookup (Python `dict` access `d[k]` guarded by `k in d`). -/
def lookupL {α β : Type} [DecidableEq α] (k : α) : List (α × β) → Option β
  | [] => none
  | (a, b) :: t => if a = k then some b else lookupL k t

/-! ## `Association.multipletests_per_drug` (associations.py, lines 91-105)

The table is a list of rows `R`; `key` extracts the grouping tuple
(`index_cols`, by default the drug identity `(DRUG_ID, DRUG_NAME, VERSION)`),
`field` extracts the raw p-value column, and `corrector` is the external
`statsmodels.multipletests(·, method)[1]` call, applied to the p-values of
one group at a time.  The Python code forms the set of distinct keys, takes
`df.loc[key]` (all rows of that group, in table order), assigns the group's
corrected vector positionally, and concatenates the groups. -/

/-- Shallow embedding of `Association.multipletests_per_drug`: each output row
is an input row paired with its corrected p-value, grouped per distinct key. -/
def multipletests_per_drug {R K : Type} [DecidableEq K]
    (key : R → K) (field : R → ℚ) (corrector : List ℚ → List ℚ)
    (rows : List R) : List (R × ℚ) :=
  ((rows.map key).dedup).flatMap (fun k =>
    let grp := rows.filter (fun r => key r = k)
    grp.zip (corrector (grp.map field)))

/-! ## Association rows -/

/-- Drug identity tuple, `DrugResponse.DRUG_COLUMNS = (DRUG_ID, DRUG_NAME, VERSION)`. -/
abbrev DrugKey := ℕ × String × String

/-- One row of the single-association table (an `AssociationRecord` before
correction): drug identity, gene symbol, effect size, raw p-value, realized
sample count. -/
structure ARow (D G : Type) where
  drug : D
  gene : G
  beta : ℚ
  pval : ℚ
  n_samples : ℕ
deriving DecidableEq

/-- Model of the external `statsmodels.multipletests(·, method='bonferroni')[1]`
corrected-p-value vector: each p-value is multiplied by the number of tests and
capped at 1 (used only to instantiate witnesses; the theorems hold for any
length-preserving corrector). -/
def bonferroni (l : List ℚ) : List ℚ := l.map (fun p => min 1 (p * l.length))

/-- Concrete table for the C1 witness: two drugs, three rows. -/
def c1rows : List (ARow DrugKey String) :=
  [⟨(1, "dA", "v17"), "g1", 1, 1/10, 5⟩,
   ⟨(1, "dA", "v17"), "g2", 2, 1/2, 5⟩,
   ⟨(2, "dB", "RS"), "g1", 3, 1/5, 4⟩]

/-! ## `Association.kinship` (associations.py, lines 49-53) -/

/-- Shallow embedding of `Association.kinship`: `K = k.dot(k.T)` divided in
place by the mean of its diagonal (`K.values.diagonal().mean()`).  `k` has
samples as rows, so the result is sample-by-sample. -/
def kinship {n m : ℕ} (k : Matrix (Fin n) (Fin m) ℚ) : Matrix (Fin n) (Fin n) ℚ :=
  Matrix.of (fun i j =>
    (k * k.transpose) i j / ((∑ i', (k * k.transpose) i' i') / (n : ℚ)))

/-! ## PPI graph engine (importer.py, class `PPI`)

The igraph object is embedded as an undirected edge list over gene-symbol
strings; `igraph.shortest_paths` becomes a breadth-first level search, with
`none` standing for igraph's `inf` on unreachable pairs. -/

/-- The graph's node set (`ppi.vs['name']`): every edge endpoint, deduplicated. -/
def nodesOf (edges : List (String × String)) : List String :=
  (edges.flatMap (fun e => [e.1, e.2])).dedup

/-- Neighbours of `v` in the undirected edge list. -/
def nbrs (edges : List (String × String)) (v : String) : List String :=
  edges.filterMap (fun e =>
    if e.1 = v then some e.2 else if e.2 = v then some e.1 else none)

/-- All nodes within `i` hops of `s` (breadth-first ball). -/
def ball (edges : List (String × String)) (s : String) : ℕ → List String
  | 0 => [s]
  | i + 1 => ((ball edges s i) ++ (ball edges s i).flatMap (nbrs edges)).dedup

/-- Shortest-path hop distance (`igraph.shortest_paths` for one pair): the
first breadth-first level containing `t`, `none` (igraph `inf`) when `t` is
never reached. -/
def spDist (edges : List (String × String)) (s t : String) : Option ℕ :=
  (List.range ((nodesOf edges).length + 1)).find? (fun i => t ∈ ball edges s i)

/-- `np.min` over distances where `none` plays `np.inf`. -/
def minD : Option ℕ → Option ℕ → Option ℕ
  | none, b => b
  | some x, none => some x
  | some x, some y => some (min x y)

/-- Minimum of a column of distances (`np.min(..., axis=0)`). -/
def minDs (l : List (Option ℕ)) : Option ℕ := l.foldr minD none

/-- Shallow embedding of `PPI.dist_drugtarget_genes` (importer.py 442-455):
the queried genes are intersected with the graph's node set, an `assert`
fails when that intersection is empty, and every drug with at least one
target inside the intersection is mapped to the per-gene minimum
shortest-path distance from its targets. -/
def dist_drugtarget_genes (drug_targets : List (ℕ × List String))
    (genes : List String) (edges : List (String × String)) :
    Except String (List (ℕ × List (String × Option ℕ))) :=
  let genes' := genes.filter (fun g => g ∈ nodesOf edges)
  if genes'.length = 0 then
    Except.error "No genes overlapping with PPI provided"
  else
    Except.ok (drug_targets.filterMap (fun dt =>
      let drug_genes := dt.2.filter (fun t => t ∈ genes')
      if drug_genes.length = 0 then none
      else some (dt.1, genes'.map (fun g =>
        (g, minDs (drug_genes.map (fun s => spDist edges s g)))))))

/-- Shallow embedding of `PPI.ppi_dist_to_string` (importer.py 457-471). -/
def ppi_dist_to_string (d : Option ℕ) (target_thres : ℕ) : String :=
  match d with
  | some 0 => "T"
  | none => "-"
  | some dd => if dd < target_thres then toString dd else ">=" ++ toString target_thres

/-- Shallow embedding of the row annotator `drug_gene_annot` defined inside
`PPI.ppi_annotation` (importer.py 423-436): a drug without target annotation
gives `"-"`; a gene that is itself one of the drug's targets gives `"T"`;
a pair missing from the distance matrix gives `"-"`; otherwise the distance
is rendered by `ppi_dist_to_string`. -/
def drug_gene_annot (d_targets : List (ℕ × List String))
    (dist_d_g : List (ℕ × List (String × Option ℕ)))
    (target_thres : ℕ) (d : ℕ) (g : String) : String :=
  match lookupL d d_targets with
  | none => "-"
  | some tg =>
    if g ∈ tg then "T"
    else
      match lookupL d dist_d_g with
      | none => "-"
      | some gd =>
        match lookupL g gd with
        | none => "-"
        | some dd => ppi_dist_to_string dd target_thres

/-- The toy graph of the spec's concrete scenario: edge A—B and path A—B—C. -/
def abcEdges : List (String × String) := [("A", "B"), ("B", "C")]

/-! ## `Association.lmm_association_limix` (associations.py, lines 55-89)

`y` is a one-column DataFrame indexed by sample (a list of index/value
pairs, `none` for NaN), `x` and `m` are column collections that can be
re-indexed by sample (`.loc`), `k` an optional kinship lookup.  The sklearn
`StandardScaler` square root is the parameter `sq`; sklearn's fatal
"0 sample(s)" check on an empty fit is the error branch. -/

/-- `y.dropna()`: keep exactly the rows with a present value, in order. -/
def dropnaS {S : Type} (y : List (S × Option ℚ)) : List (S × ℚ) :=
  y.filterMap (fun sv => sv.2.map (fun v => (sv.1, v)))

/-- Label of a fixed-effect covariate column after the intercept logic:
a supplied covariate, the synthesized `'intercept'` column, or the
degenerate `'zeros'` column. -/
inductive MLab (Cv : Type) where
  | cov (c : Cv)
  | intercept
  | zeros
deriving DecidableEq

/-- `StandardScaler().fit_transform` on one column: subtract the column
mean, divide by the square root (the external `sq`) of the population
variance. -/
def zscore (sq : ℚ → ℚ) (col : List ℚ) : List ℚ :=
  col.map (fun v => (v - meanL col) / sq (varL col))

/-- `Association.kinship` applied to a samples×features list-of-rows matrix
(`K = k.dot(k.T); K /= K.values.diagonal().mean()`). -/
def kinshipL (rows : List (List ℚ)) : List (List ℚ) :=
  rows.map (fun r => rows.map (fun r2 =>
    dotL r r2 / (((rows.map (fun r' => dotL r' r')).sum) / (rows.length : ℚ))))

/-- The matrices `lmm_association_limix` hands to the external limix
`scan(X, Y, K=K, M=m, lik=lik)` call. -/
structure LimixCall (S G Cv : Type) where
  X : List (G × List ℚ)
  Y : List (S × ℚ)
  K : List (List ℚ)
  M : List (MLab Cv × List ℚ)

/-- Shallow embedding of `Association.lmm_association_limix`: drop missing
responses, re-index and standardize the design `x`, restrict or synthesize
the kinship `K`, standardize the covariates and apply the intercept logic,
then hand everything to the solver.  sklearn fails fatally when zero usable
samples remain. -/
def lmm_association_limix {S G Cv : Type}
    (sq : ℚ → ℚ) (y : List (S × Option ℚ)) (x : List (G × (S → ℚ)))
    (m : Option (List (Cv × (S → ℚ)))) (k : Option (S → S → ℚ))
    (add_intercept : Bool) : Except String (LimixCall S G Cv) :=
  let Y := dropnaS y
  let idx := Y.map Prod.fst
  if idx.length = 0 then
    Except.error "Found array with 0 sample(s)"
  else
    Except.ok
      { X := x.map (fun gc => (gc.1, zscore sq (idx.map gc.2)))
        Y := Y
        K := match k with
          | none => kinshipL (idx.map (fun s => x.map (fun gc => gc.2 s)))
          | some kk => idx.map (fun i => idx.map (fun j => kk i j))
        M := match m, add_intercept with
          | some mm, true =>
              (mm.map (fun cc => (MLab.cov cc.1, zscore sq (idx.map cc.2))))
                ++ [(MLab.intercept, idx.map (fun _ => (1 : ℚ)))]
          | none, true => [(MLab.intercept, idx.map (fun _ => (1 : ℚ)))]
          | some _, false => [(MLab.zeros, idx.map (fun _ => (0 : ℚ)))]
          | none, false => [(MLab.zeros, idx.map (fun _ => (0 : ℚ)))] }

/-- Concrete response series for the scanner witnesses: sample 1 is missing. -/
def yFix : List (ℕ × Option ℚ) := [(0, some 1), (1, none), (2, some 3)]

/-- Concrete one-gene design for the scanner witnesses. -/
def xFix : List (String × (ℕ → ℚ)) := [("g", fun s => (s : ℚ))]

/-- Concrete one-column covariate matrix for the scanner witnesses. -/
def mFix : List (String × (ℕ → ℚ)) := [("c", fun s => (2 * s : ℚ))]

/-- Concrete kinship lookup (identity) for the scanner witnesses. -/
def kFix : ℕ → ℕ → ℚ := fun i j => if i = j then 1 else 0

/-- A square root adequate on the variances occurring in the witnesses. -/
def sqFix : ℚ → ℚ := fun v => if v = 4 then 2 else v

/-- The call record produced by the scanner on the C6 witness fixtures
(usable samples 0 and 2; the design column standardizes to `[-1, 1]`). -/
def c6out : LimixCall ℕ String String :=
  { X := xFix.map (fun gc => (gc.1, zscore sqFix (((dropnaS yFix).map Prod.fst).map gc.2)))
    Y := dropnaS yFix
    K := ((dropnaS yFix).map Prod.fst).map (fun i =>
      ((dropnaS yFix).map Prod.fst).map (fun j => kFix i j))
    M := (mFix.map (fun cc =>
        (MLab.cov cc.1, zscore sqFix (((dropnaS yFix).map Prod.fst).map cc.2))))
      ++ [(MLab.intercept, ((dropnaS yFix).map Prod.fst).map (fun _ => (1 : ℚ)))] }

/-- The call record produced by the scanner on the C7 witness fixtures
(no covariate matrix, intercept requested). -/
def c7out : LimixCall ℕ String String :=
  { X := xFix.map (fun gc => (gc.1, zscore sqFix (((dropnaS yFix).map Prod.fst).map gc.2)))
    Y := dropnaS yFix
    K := ((dropnaS yFix).map Prod.fst).map (fun i =>
      ((dropnaS yFix).map Prod.fst).map (fun j => kFix i j))
    M := [(MLab.intercept, ((dropnaS yFix).map Prod.fst).map (fun _ => (1 : ℚ)))] }

/-! ## `Association.__lmm_robust_association` (associations.py, lines 174-213)
and `Association.lmm_robust_association` (lines 215-227)

The limix solver stays external, so each `scan(X, Y, K, lik='normal')` call
is recorded as the matrices handed to it; the p-value assembly and the two
per-drug corrections downstream of the scans reuse `multipletests_per_drug`. -/

/-- The matrices of one robust-check `scan` call: the genomic design columns
over the usable samples, the outcome vector, and the kinship. -/
structure RobustScan (E : Type) where
  X : List (E × List ℚ)
  Yv : List ℚ
  K : List (List ℚ)

/-- Shallow embedding of `Association.__lmm_robust_association`: `Y1` is the
drug-response row restricted to its non-missing samples, `Y2` the gene-effect
row on exactly those samples, the design keeps the genomic events with at
least `min_events` occurrences there, the kinship is the normalized Gram
matrix of the (unfiltered) genomic matrix on those samples, and the two
scans — drug outcome first, gene outcome second — are returned in order. -/
def lmm_robust_single {S E : Type}
    (y1 : S → Option ℚ) (y2 : S → ℚ) (samples : List S)
    (events : List E) (x : E → S → ℚ) (min_events : ℕ) :
    RobustScan E × RobustScan E :=
  let usable := samples.filter (fun s => (y1 s).isSome)
  let Xf := (events.filter (fun e => (min_events : ℚ) ≤ (usable.map (x e)).sum)).map
    (fun e => (e, usable.map (x e)))
  let K := kinshipL (usable.map (fun s => events.map (fun e => x e s)))
  (⟨Xf, usable.filterMap y1, K⟩, ⟨Xf, usable.map y2, K⟩)

/-- Shallow embedding of `Association.lmm_robust_association`: keep the
associations passing `fdr < fdr_thres` and run the robust scan pair for each
of them against the genomic-event matrix. -/
def lmm_robust_association {S E D G : Type}
    (assocs : List (ARow D G × ℚ)) (fdr_thres : ℚ)
    (drespo : D → S → Option ℚ) (crispr : G → S → ℚ)
    (samples : List S) (events : List E) (x : E → S → ℚ) (min_events : ℕ) :
    List ((ARow D G × ℚ) × (RobustScan E × RobustScan E)) :=
  (assocs.filter (fun r => r.2 < fdr_thres)).map
    (fun r => (r, lmm_robust_single (drespo r.1.drug) (crispr r.1.gene) samples events x
      min_events))

/-- Concrete fixtures for the C4 witness: one association at fdr 0, samples
0 and 1 with sample 1 missing from the drug response, one genomic event. -/
def c4row : ARow ℕ String × ℚ := (⟨1, "g", 0, 1/2, 2⟩, 0)

/-- Concrete drug response for the C4 witness. -/
def c4drespo : ℕ → ℕ → Option ℚ := fun _ s => if s = 1 then none else some 1

/-- Concrete gene effects for the C4 witness. -/
def c4crispr : String → ℕ → ℚ := fun _ _ => 2

/-- Concrete genomic-event matrix for the C4 witness. -/
def c4x : String → ℕ → ℚ := fun _ _ => 1

/-! ## `Association.__lmm_single_associations` (associations.py 125-145) and
`Association.lmm_single_associations` (147-172) -/

/-- Insertion into a sorted list (ordering model of `sort_values`). -/
def insertSorted {α : Type} (le : α → α → Bool) (a : α) : List α → List α
  | [] => [a]
  | b :: t => if le a b then a :: b :: t else b :: insertSorted le a t

/-- Insertion sort: the model of `DataFrame.sort_values`. -/
def sortL {α : Type} (le : α → α → Bool) : List α → List α
  | [] => []
  | a :: t => insertSorted le a (sortL le t)

/-- Sequential evaluation of a per-drug computation, stopping at the first
failure (the Python list comprehension's exception propagation). -/
def mapME {α β : Type} (f : α → Except String β) : List α → Except String (List β)
  | [] => Except.ok []
  | a :: t =>
    match f a with
    | Except.error e => Except.error e
    | Except.ok b =>
      match mapME f t with
      | Except.error e => Except.error e
      | Except.ok bs => Except.ok (b :: bs)

/-- Shallow embedding of `Association.__lmm_single_associations`: run the
limix call on one drug's response row, emit one row per column of the
standardized design (`GeneSymbol = params['x'].columns`, effect size and
p-value from the external solver `scanf`), annotated with the drug identity
and the realized sample count `params['y'].shape[0]`. -/
def lmm_single_assoc_drug {S G Cv D : Type}
    (sq : ℚ → ℚ) (scanf : LimixCall S G Cv → G → ℚ × ℚ)
    (samples : List S) (drespo : D → S → Option ℚ) (x : List (G × (S → ℚ)))
    (m : List (Cv × (S → ℚ))) (k : S → S → ℚ) (d : D) :
    Except String (List (ARow D G)) :=
  (lmm_association_limix sq (samples.map (fun s => (s, drespo d s))) x (some m)
      (some k) true).map (fun call =>
    call.X.map (fun gc =>
      { drug := d, gene := gc.1, beta := (scanf call gc.1).1,
        pval := (scanf call gc.1).2, n_samples := call.Y.length }))

/-- Shallow embedding of `Association.lmm_single_associations`: the per-drug
scans share the CRISPR-derived kinship `k` and the covariates `m`; their
tables are concatenated, corrected per drug by `multipletests_per_drug`,
annotated with the drug's target set (`annotate_drug_target`, the external
`dtargets` join) and the PPI target distance (the external `annot`, built
from `drug_gene_annot`), and sorted by `(fdr, pval)`. -/
def lmm_single_associations {S G Cv D : Type} [DecidableEq D]
    (sq : ℚ → ℚ) (scanf : LimixCall S G Cv → G → ℚ × ℚ)
    (corrector : List ℚ → List ℚ)
    (samples : List S) (drugs : List D) (drespo : D → S → Option ℚ)
    (x : List (G × (S → ℚ))) (m : List (Cv × (S → ℚ))) (k : S → S → ℚ)
    (dtargets : D → Option String) (annot : D → G → String) :
    Except String (List ((ARow D G × ℚ) × Option String × String)) :=
  (mapME (lmm_single_assoc_drug sq scanf samples drespo x m k) drugs).map
    (fun tables =>
      sortL (fun a b => a.1.2 < b.1.2 ∨ (a.1.2 = b.1.2 ∧ a.1.1.pval ≤ b.1.1.pval))
        ((multipletests_per_drug (fun r => r.drug) (fun r => r.pval) corrector
            tables.flatten).map
          (fun rc => (rc, dtargets rc.1.drug, annot rc.1.drug rc.1.gene))))

/-- Concrete drug-response lookup for the C9 witness: sample 1 missing. -/
def c9drespo : ℕ → ℕ → Option ℚ := fun _ s => if s = 1 then none else some (s : ℚ)

/-- Sample list for the C9 witness. -/
def c9samples : List ℕ := [0, 1, 2]

/-- The response series handed to the scanner for drug 1. -/
def c9y : List (ℕ × Option ℚ) := c9samples.map (fun s => (s, c9drespo 1 s))

/-- The call record of the single C9 scan. -/
def c9call : LimixCall ℕ String String :=
  { X := xFix.map (fun gc => (gc.1, zscore sqFix (((dropnaS c9y).map Prod.fst).map gc.2)))
    Y := dropnaS c9y
    K := ((dropnaS c9y).map Prod.fst).map (fun i =>
      ((dropnaS c9y).map Prod.fst).map (fun j => kFix i j))
    M := (mFix.map (fun cc =>
        (MLab.cov cc.1, zscore sqFix (((dropnaS c9y).map Prod.fst).map cc.2))))
      ++ [(MLab.intercept, ((dropnaS c9y).map Prod.fst).map (fun _ => (1 : ℚ)))] }

/-- The external solver stub for the C9 witness. -/
def c9scanf : LimixCall ℕ String String → String → ℚ × ℚ := fun _ _ => (0, 1/2)

/-- The per-drug table of the C9 witness. -/
def c9tab : List (ARow ℕ String) :=
  c9call.X.map (fun gc =>
    { drug := 1, gene := gc.1, beta := (c9scanf c9call gc.1).1,
      pval := (c9scanf c9call gc.1).2, n_samples := c9call.Y.length })

/-- The drug-target join stub for the C9 witness. -/
def c9dt : ℕ → Option String := fun _ => none

/-- The target-distance annotator stub for the C9 witness. -/
def c9an : ℕ → String → String := fun _ _ => "-"

/-- The full single-association output of the C9 witness. -/
def c9res : List ((ARow ℕ String × ℚ) × Option String × String) :=
  sortL (fun a b => a.1.2 < b.1.2 ∨ (a.1.2 = b.1.2 ∧ a.1.1.pval ≤ b.1.1.pval))
    ((multipletests_per_drug (fun r => r.drug) (fun r => r.pval) bonferroni
        [c9tab].flatten).map
      (fun rc => (rc, c9dt rc.1.drug, c9an rc.1.drug rc.1.gene)))

/-! ## Theorems -/

/-- Helper: the group of a key is untouched by removing other keys' rows. -/
theorem filter_key_filter_ne {R K : Type} [DecidableEq K]
    (key : R → K) (k k' : K) (hne : k' ≠ k) (rows : List R) :
    (rows.filter (fun r => !(decide (key r = k)))).filter (fun r => key r = k')
      = rows.filter (fun r => key r = k') := by
  induction rows with
  | nil => simp
  | cons a t ih =>
    by_cases h : key a = k
    · have h2 : ¬(key a = k') := fun hh => hne (by rw [← hh, h])
      simp [List.filter_cons, h, h2, hne, hne.symm, ih]
    · by_cases h' : key a = k'
      · simp [List.filter_cons, h, h', hne, ih]
      · simp [List.filter_cons, h, h', hne, ih]

/-- Helper: concatenating the per-key groups over a duplicate-free list of
keys covering every row's key is a permutation of the table. -/
theorem flatMap_groups_perm {R K : Type} [DecidableEq K]
    (key : R → K) (keys : List K) (rows : List R)
    (hnd : keys.Nodup) (hcov : ∀ r ∈ rows, key r ∈ keys) :
    (keys.flatMap (fun k => rows.filter (fun r => key r = k))).Perm rows := by
  induction keys generalizing rows with
  | nil =>
    have : rows = [] := by
      cases rows with
      | nil => rfl
      | cons a t => exact absurd (hcov a (by simp)) (by simp)
    simp [this]
  | cons k ks ih =>
    have hnd' : ks.Nodup := (List.nodup_cons.mp hnd).2
    have hk : k ∉ ks := (List.nodup_cons.mp hnd).1
    have step1 : ∀ k' ∈ ks, rows.filter (fun r => key r = k')
        = (rows.filter (fun r => !(decide (key r = k)))).filter (fun r => key r = k') := by
      intro k' hk'
      have : k' ≠ k := fun h => hk (h ▸ hk')
      exact (filter_key_filter_ne key k k' this rows).symm
    have hflat : ks.flatMap (fun k' => rows.filter (fun r => key r = k'))
        = ks.flatMap (fun k' =>
            (rows.filter (fun r => !(decide (key r = k)))).filter (fun r => key r = k')) := by
      apply List.flatMap_congr
      intro k' hk'
      exact step1 k' hk'
    have hcov' : ∀ r ∈ rows.filter (fun r => !(decide (key r = k))), key r ∈ ks := by
      intro r hr
      rw [List.mem_filter] at hr
      have := hcov r hr.1
      simp at hr
      simpa [hr.2] using this
    have e1 : ((k :: ks).flatMap (fun k' => rows.filter (fun r => key r = k')))
        = rows.filter (fun r => key r = k)
            ++ ks.flatMap (fun k' => rows.filter (fun r => key r = k')) := by
      simp [List.flatMap_cons]
    rw [e1, hflat]
    exact ((ih _ hnd' hcov').append_left
      (rows.filter (fun r => key r = k))).trans (List.filter_append_perm _ rows)

/-- Helper: when the corrector preserves lengths, stripping the corrected
column from the output recovers a permutation of the input rows. -/
theorem multipletests_per_drug_perm {R K : Type} [DecidableEq K]
    (key : R → K) (field : R → ℚ) (corrector : List ℚ → List ℚ)
    (hlen : ∀ l, (corrector l).length = l.length)
    (rows : List R) :
    ((multipletests_per_drug key field corrector rows).map Prod.fst).Perm rows := by
  unfold multipletests_per_drug
  rw [List.map_flatMap]
  have hmap : ∀ k, ((rows.filter (fun r => key r = k)).zip
      (corrector ((rows.filter (fun r => key r = k)).map field))).map Prod.fst
      = rows.filter (fun r => key r = k) := by
    intro k
    apply List.map_fst_zip
    rw [hlen, List.length_map]
  have e : ((rows.map key).dedup.flatMap (fun k =>
          ((rows.filter (fun r => key r = k)).zip
            (corrector ((rows.filter (fun r => key r = k)).map field))).map Prod.fst))
      = (rows.map key).dedup.flatMap (fun k => rows.filter (fun r => key r = k)) := by
    apply List.flatMap_congr
    intro k _
    exact hmap k
  rw [e]
  apply flatMap_groups_perm key _ rows (List.nodup_dedup _)
  intro r hr
  rw [List.mem_dedup]
  exact List.mem_map_of_mem key hr

/-- Helper: filtering a key-homogeneous zipped block keeps all or nothing. -/
theorem filter_zip_block {R K : Type} [DecidableEq K]
    (key : R → K) (k k' : K) (l : List R) (c : List ℚ)
    (hl : ∀ r ∈ l, key r = k') :
    (l.zip c).filter (fun p => key p.1 = k) = if k' = k then l.zip c else [] := by
  by_cases h : k' = k
  · subst h
    rw [if_pos rfl, List.filter_eq_self]
    intro p hp
    obtain ⟨a, b⟩ := p
    simpa using hl a (List.of_mem_zip hp).1
  · rw [if_neg h, List.filter_eq_nil_iff]
    intro p hp
    obtain ⟨a, b⟩ := p
    have := hl a (List.of_mem_zip hp).1
    simpa [this] using h

/-- Helper: filtering distributes over the per-key blocks of a `flatMap`. -/
theorem filter_flatMap_blocks {R K : Type} (keys : List K)
    (blk : K → List R) (p : R → Bool) :
    (keys.flatMap blk).filter p = keys.flatMap (fun k => (blk k).filter p) := by
  induction keys with
  | nil => simp
  | cons a t ih => simp [List.flatMap_cons, List.filter_append, ih]

/-- Helper: dedup of a non-empty constant list is the singleton. -/
theorem dedup_const {K : Type} [DecidableEq K] (k : K) :
    ∀ (l : List K), l ≠ [] → (∀ x ∈ l, x = k) → l.dedup = [k] := by
  intro l
  induction l with
  | nil => intro h; exact absurd rfl h
  | cons a t ih =>
    intro _ hall
    have ha : a = k := hall a (by simp)
    cases t with
    | nil => simp [ha]
    | cons b u =>
      have hbt : ∀ x ∈ b :: u, x = k := fun x hx => hall x (by simp [hx])
      have hab : a = b := ha.trans (hbt b (by simp)).symm
      have hmem : a ∈ b :: u := by
        rw [hab]
        simp
      rw [List.dedup_cons_of_mem hmem]
      exact ih (by simp) hbt

/-- Helper: the keys of a single-key sub-table. -/
theorem dedup_map_key_filter {R K : Type} [DecidableEq K]
    (key : R → K) (rows : List R) (k : K) (hne : rows.filter (fun r => key r = k) ≠ []) :
    (((rows.filter (fun r => key r = k)).map key).dedup) = [k] := by
  apply dedup_const
  · simpa using hne
  · intro x hx
    obtain ⟨r, hr, rfl⟩ := List.mem_map.mp hx
    simpa using (List.mem_filter.mp hr).2

/-- Helper: a `flatMap` that keeps only one key of a duplicate-free list. -/
theorem flatMap_if_eq {K α : Type} [DecidableEq K] (B : List α) (k : K) :
    ∀ (keys : List K), keys.Nodup → k ∈ keys →
      (keys.flatMap (fun k' => if k' = k then B else [])) = B := by
  intro keys
  induction keys with
  | nil => intro _ h; exact absurd h (List.not_mem_nil k)
  | cons a t ih =>
    intro hnd hmem
    rcases List.mem_cons.mp hmem with h | h
    · have hka : k ∉ t := by rw [h]; exact (List.nodup_cons.mp hnd).1
      have hz : (t.flatMap (fun k' => if k' = k then B else [])) = [] := by
        rw [List.flatMap_eq_nil_iff]
        intro k' hk'
        have hne : ¬(k' = k) := fun hh => hka (hh ▸ hk')
        rw [if_neg hne]
      rw [List.flatMap_cons, if_pos h.symm, hz, List.append_nil]
    · have hak : ¬(a = k) := by
        rintro rfl
        exact (List.nodup_cons.mp hnd).1 h
      rw [List.flatMap_cons, if_neg hak, List.nil_append]
      exact ih (List.nodup_cons.mp hnd).2 h

/-- Helper: a key's block in the full corrected table equals the corrected
single-key sub-table. -/
theorem multipletests_per_drug_filter {R K : Type} [DecidableEq K]
    (key : R → K) (field : R → ℚ) (corrector : List ℚ → List ℚ)
    (rows : List R) (k : K) :
    (multipletests_per_drug key field corrector rows).filter (fun p => key p.1 = k)
      = multipletests_per_drug key field corrector (rows.filter (fun r => key r = k)) := by
  unfold multipletests_per_drug
  rw [filter_flatMap_blocks]
  have hblk : ∀ k', (((rows.filter (fun r => key r = k')).zip
        (corrector ((rows.filter (fun r => key r = k')).map field))).filter
          (fun p => key p.1 = k))
      = if k' = k then ((rows.filter (fun r => key r = k)).zip
          (corrector ((rows.filter (fun r => key r = k)).map field))) else [] := by
    intro k'
    rw [filter_zip_block key k k' _ _ (fun r hr => by simpa using (List.mem_filter.mp hr).2)]
    by_cases h : k' = k
    · subst h
      simp
    · simp [h]
  have e : (rows.map key).dedup.flatMap (fun k' =>
        (((rows.filter (fun r => key r = k')).zip
          (corrector ((rows.filter (fun r => key r = k')).map field))).filter
            (fun p => key p.1 = k)))
      = (rows.map key).dedup.flatMap (fun k' =>
          if k' = k then ((rows.filter (fun r => key r = k)).zip
            (corrector ((rows.filter (fun r => key r = k)).map field))) else []) := by
    apply List.flatMap_congr
    intro k' _
    exact hblk k'
  rw [e]
  by_cases hmem : rows.filter (fun r => key r = k) = []
  · have hnotin : k ∉ (rows.map key).dedup := by
      rw [List.mem_dedup, List.mem_map]
      rintro ⟨r, hr, rfl⟩
      have : r ∈ rows.filter (fun r' => key r' = key r) := by
        rw [List.mem_filter]
        exact ⟨hr, by simp⟩
      rw [hmem] at this
      exact absurd this (List.not_mem_nil r)
    have hz : (rows.map key).dedup.flatMap (fun k' =>
        if k' = k then ((rows.filter (fun r => key r = k)).zip
          (corrector ((rows.filter (fun r => key r = k)).map field))) else []) = [] := by
      rw [List.flatMap_eq_nil_iff]
      intro k' hk'
      have : k' ≠ k := fun hh => hnotin (hh ▸ hk')
      simp [this]
    rw [hz, hmem]
    simp
  · have hin : k ∈ (rows.map key).dedup := by
      rw [List.mem_dedup, List.mem_map]
      obtain ⟨r, hr⟩ := List.exists_mem_of_ne_nil _ hmem
      exact ⟨r, (List.mem_filter.mp hr).1, by simpa using (List.mem_filter.mp hr).2⟩
    rw [flatMap_if_eq _ k _ (List.nodup_dedup _) hin]
    rw [dedup_map_key_filter key rows k hmem]
    have hidem : (rows.filter (fun r => key r = k)).filter (fun r => key r = k)
        = rows.filter (fun r => key r = k) := by
      rw [List.filter_eq_self]
      intro r hr
      exact (List.mem_filter.mp hr).2
    simp [List.flatMap_cons, hidem]

/-- C1: `Association.multipletests_per_drug` corrects within each
`(DRUG_ID, DRUG_NAME, VERSION)` group independently: the full run's rows for
one drug key are exactly the corrected single-drug sub-table, and stripping
the corrected column from the output gives a permutation of the input rows
(no row dropped, none duplicated), for any length-preserving corrector. -/
theorem C1_multipletests_per_drug_grouping
    (corrector : List ℚ → List ℚ)
    (hlen : ∀ l, (corrector l).length = l.length)
    (rows : List (ARow DrugKey String)) (k : DrugKey) :
    ((multipletests_per_drug (fun r => r.drug) (fun r => r.pval) corrector rows).filter
        (fun p => p.1.drug = k)
      = multipletests_per_drug (fun r => r.drug) (fun r => r.pval) corrector
          (rows.filter (fun r => r.drug = k)))
    ∧ ((multipletests_per_drug (fun r => r.drug) (fun r => r.pval) corrector rows).map
        Prod.fst).Perm rows :=
  ⟨multipletests_per_drug_filter (fun r => r.drug) (fun r => r.pval) corrector rows k,
   multipletests_per_drug_perm (fun r => r.drug) (fun r => r.pval) corrector hlen rows⟩

/-- C1 witness: the theorem instantiated at the Bonferroni corrector and a
concrete two-drug table. -/
theorem C1_witness :
    ((multipletests_per_drug (fun r => r.drug) (fun r => r.pval) bonferroni c1rows).filter
        (fun p => p.1.drug = ((1 : ℕ), "dA", "v17"))
      = multipletests_per_drug (fun r => r.drug) (fun r => r.pval) bonferroni
          (c1rows.filter (fun r => r.drug = ((1 : ℕ), "dA", "v17"))))
    ∧ ((multipletests_per_drug (fun r => r.drug) (fun r => r.pval) bonferroni c1rows).map
        Prod.fst).Perm c1rows :=
  C1_multipletests_per_drug_grouping bonferroni
    (fun l => by simp [bonferroni]) c1rows ((1 : ℕ), "dA", "v17")

/-- C3: the kinship builder returns `k·kᵀ` divided by the mean of the diagonal
of `k·kᵀ`; the result is symmetric and its diagonal mean is exactly 1 whenever
the input is non-degenerate (nonzero diagonal mean of the Gram matrix). -/
theorem C3_kinship_symmetric_unit_diagonal {n m : ℕ} (k : Matrix (Fin n) (Fin m) ℚ)
    (hc : (∑ i, (k * k.transpose) i i) / (n : ℚ) ≠ 0) :
    (kinship k).transpose = kinship k
      ∧ (∑ i, kinship k i i) / (n : ℚ) = 1 := by
  have hsym : (k * k.transpose).transpose = k * k.transpose := by
    rw [Matrix.transpose_mul, Matrix.transpose_transpose]
  constructor
  · ext i j
    have hij : (k * k.transpose) j i = (k * k.transpose) i j := by
      conv_lhs => rw [← hsym]
      rfl
    simp [kinship, Matrix.transpose_apply, hij]
  · have hn : (n : ℚ) ≠ 0 := by
      intro h
      apply hc
      rw [h, div_zero]
    have hS : (∑ i, (k * k.transpose) i i) ≠ 0 := by
      intro h
      apply hc
      rw [h, zero_div]
    have hsum : (∑ i, kinship k i i)
        = (∑ i, (k * k.transpose) i i) / ((∑ i', (k * k.transpose) i' i') / (n : ℚ)) := by
      simp only [kinship, Matrix.of_apply]
      rw [← Finset.sum_div]
    rw [hsum]
    field_simp

/-- C3 witness: the theorem at the 1×1 feature matrix `[[2]]`. -/
theorem C3_witness :
    ((∑ i, ((!![(2 : ℚ)]) * (!![(2 : ℚ)]).transpose) i i) / ((1 : ℕ) : ℚ) ≠ 0)
    ∧ ((kinship !![(2 : ℚ)]).transpose = kinship !![(2 : ℚ)]
      ∧ (∑ i, kinship !![(2 : ℚ)] i i) / ((1 : ℕ) : ℚ) = 1) :=
  ⟨by norm_num [Matrix.mul_apply, Fin.sum_univ_one],
   C3_kinship_symmetric_unit_diagonal !![(2 : ℚ)]
     (by norm_num [Matrix.mul_apply, Fin.sum_univ_one])⟩

/-- C2: the rendering of a drug-gene distance follows the fixed mapping
(0 ↦ "T", unreachable ↦ "-", 0 < d < thres ↦ "d", d ≥ thres ↦ ">=thres"),
and on the concrete scenario (drug targeting "A", edges A—B and B—C,
threshold 3) the distance matrix assigns A ↦ 0, B ↦ 1, C ↦ 2 — the per-gene
minimum over the drug's targets of the breadth-first shortest-path
distance — and the annotations are "T", "1", "2"; a second drug targeting
both "B" and "C" shows the minimum being taken over several targets. -/
theorem C2_distance_to_annot_mapping :
    (∀ thres, ppi_dist_to_string (some 0) thres = "T"
      ∧ ppi_dist_to_string none thres = "-"
      ∧ (∀ dd, 0 < dd → dd < thres → ppi_dist_to_string (some dd) thres = toString dd)
      ∧ (∀ dd, 0 < dd → thres ≤ dd →
          ppi_dist_to_string (some dd) thres = ">=" ++ toString thres))
    ∧ dist_drugtarget_genes [(1, ["A"]), (2, ["B", "C"])] ["A", "B", "C"] abcEdges
        = Except.ok
            [(1, [("A", some 0), ("B", some 1), ("C", some 2)]),
             (2, [("A", some 1), ("B", some 0), ("C", some 0)])]
    ∧ drug_gene_annot [(1, ["A"])]
        [(1, [("A", some 0), ("B", some 1), ("C", some 2)])] 3 1 "A" = "T"
    ∧ drug_gene_annot [(1, ["A"])]
        [(1, [("A", some 0), ("B", some 1), ("C", some 2)])] 3 1 "B" = "1"
    ∧ drug_gene_annot [(1, ["A"])]
        [(1, [("A", some 0), ("B", some 1), ("C", some 2)])] 3 1 "C" = "2" := by
  refine ⟨fun thres => ⟨rfl, rfl, ?_, ?_⟩, by rfl, by decide, by decide, by decide⟩
  · intro dd h0 hlt
    cases dd with
    | zero => exact absurd h0 (by simp)
    | succ n =>
      simp only [ppi_dist_to_string]
      rw [if_pos hlt]
  · intro dd h0 hge
    cases dd with
    | zero => exact absurd h0 (by simp)
    | succ n =>
      simp only [ppi_dist_to_string]
      rw [if_neg (by omega)]

/-- C2 witness: the mapping applied at distance 2, threshold 3 (the "C" case
of the concrete scenario) and at distance 5, threshold 3 (the capped case). -/
theorem C2_witness :
    ppi_dist_to_string (some 2) 3 = toString 2
    ∧ ppi_dist_to_string (some 5) 3 = ">=" ++ toString 3 :=
  ⟨(C2_distance_to_annot_mapping.1 3).2.2.1 2 (by decide) (by decide),
   (C2_distance_to_annot_mapping.1 3).2.2.2 5 (by decide) (by decide)⟩

/-- C5: `PPI.dist_drugtarget_genes` fails fatally (the Python `assert` with
message "No genes overlapping with PPI provided") exactly when the queried
genes have empty intersection with the graph's nodes; with non-empty overlap
it returns a distance table. -/
theorem C5_no_overlap_is_fatal (drug_targets : List (ℕ × List String))
    (genes : List String) (edges : List (String × String)) :
    ((genes.filter (fun g => g ∈ nodesOf edges)).length = 0 →
      dist_drugtarget_genes drug_targets genes edges
        = Except.error "No genes overlapping with PPI provided")
    ∧ ((genes.filter (fun g => g ∈ nodesOf edges)).length ≠ 0 →
      (dist_drugtarget_genes drug_targets genes edges).isOk = true) := by
  constructor
  · intro h
    simp [dist_drugtarget_genes, h]
  · intro h
    simp only [dist_drugtarget_genes]
    rw [if_neg h]
    rfl

/-- C5 witness: a graph covering none of the queried genes errors; the same
graph with overlap succeeds. -/
theorem C5_witness :
    dist_drugtarget_genes [(1, ["A"])] ["X"] abcEdges
      = Except.error "No genes overlapping with PPI provided"
    ∧ (dist_drugtarget_genes [(1, ["A"])] ["A"] abcEdges).isOk = true :=
  ⟨(C5_no_overlap_is_fatal [(1, ["A"])] ["X"] abcEdges).1 (by decide),
   (C5_no_overlap_is_fatal [(1, ["A"])] ["A"] abcEdges).2 (by decide)⟩

/-- C10: target-set membership wins over graph reachability: whenever the
drug has a target annotation containing the gene, `drug_gene_annot` returns
`"T"` regardless of the distance matrix (so also when the gene is absent
from the PPI graph or unreachable); `"-"` can only hit non-target genes. -/
theorem C10_target_membership_precedes_reachability
    (d_targets : List (ℕ × List String))
    (dist_d_g : List (ℕ × List (String × Option ℕ)))
    (target_thres : ℕ) (d : ℕ) (g : String) (tg : List String)
    (htg : lookupL d d_targets = some tg) (hg : g ∈ tg) :
    drug_gene_annot d_targets dist_d_g target_thres d g = "T" := by
  simp [drug_gene_annot, htg, hg]

/-- C10 witness: the gene "Z" is a target of drug 7 but appears in no
distance matrix at all (it is absent from the graph); it is still "T". -/
theorem C10_witness :
    drug_gene_annot [(7, ["Z"])] [] 3 7 "Z" = "T" :=
  C10_target_membership_precedes_reachability [(7, ["Z"])] [] 3 7 "Z" ["Z"]
    (by decide) (by decide)

/-- Helper: sums of mapped divisions pull the divisor out. -/
theorem sum_map_div (l : List ℚ) (f : ℚ → ℚ) (c : ℚ) :
    (l.map (fun v => f v / c)).sum = (l.map f).sum / c := by
  induction l with
  | nil => simp
  | cons a t ih => simp [ih, add_div]

/-- Helper: sum of deviations from a constant. -/
theorem sum_map_sub (l : List ℚ) (c : ℚ) :
    (l.map (fun v => v - c)).sum = l.sum - (l.length : ℚ) * c := by
  induction l with
  | nil => simp
  | cons a t ih =>
    simp only [List.map_cons, List.sum_cons, ih, List.length_cons]
    push_cast
    ring

/-- Helper: deviations from the mean sum to zero. -/
theorem sum_map_sub_mean (l : List ℚ) :
    (l.map (fun v => v - meanL l)).sum = 0 := by
  rw [sum_map_sub]
  by_cases h : l.length = 0
  · rw [List.length_eq_zero.mp h]
    simp [meanL]
  · have hn : (l.length : ℚ) ≠ 0 := by
      exact_mod_cast h
    rw [meanL, mul_div_cancel₀ _ hn]
    ring

/-- Helper: the mean written out. -/
theorem meanL_eq (l : List ℚ) : meanL l = l.sum / (l.length : ℚ) := rfl

/-- Helper: the variance written out. -/
theorem varL_eq (l : List ℚ) :
    varL l = meanL (l.map (fun v => (v - meanL l) ^ 2)) := rfl

/-- Helper: a standardized column has mean zero. -/
theorem meanL_zscore (sq : ℚ → ℚ) (col : List ℚ) :
    meanL (zscore sq col) = 0 := by
  have hsum : (zscore sq col).sum = 0 := by
    unfold zscore
    rw [sum_map_div col (fun v => v - meanL col) (sq (varL col)), sum_map_sub_mean,
      zero_div]
  rw [meanL_eq, hsum, zero_div]

/-- Helper: a standardized column has unit variance whenever the external
square root is nonzero and squares back to the population variance. -/
theorem varL_zscore (sq : ℚ → ℚ) (col : List ℚ)
    (hs : sq (varL col) ≠ 0) (hsq : sq (varL col) ^ 2 = varL col) :
    varL (zscore sq col) = 1 := by
  have hmean : meanL (zscore sq col) = 0 := meanL_zscore sq col
  have hV : varL col ≠ 0 := hsq ▸ pow_ne_zero 2 hs
  have h1 : varL (zscore sq col) = meanL ((zscore sq col).map (fun v => v ^ 2)) := by
    unfold varL
    rw [hmean]
    simp only [sub_zero]
  have h2 : (zscore sq col).map (fun v => v ^ 2)
      = col.map (fun v => (v - meanL col) ^ 2 / sq (varL col) ^ 2) := by
    unfold zscore
    rw [List.map_map]
    simp [Function.comp_def, div_pow]
  have h3 : ∀ μ c : ℚ, meanL (col.map (fun v => (v - μ) ^ 2 / c))
      = meanL (col.map (fun v => (v - μ) ^ 2)) / c := by
    intro μ c
    rw [meanL_eq, meanL_eq, sum_map_div col (fun v => (v - μ) ^ 2) c,
      List.length_map, List.length_map, div_right_comm]
  rw [h1, h2, h3 (meanL col) (sq (varL col) ^ 2), ← varL_eq, hsq, div_self hV]

/-- C6: before delegating to the solver, the scanner keeps exactly the
non-missing response entries on their natural scale, re-indexes the design
`x` and the kinship `k` to that sample subset, and standardizes every design
and covariate column there: each standardized column has mean 0 and variance
1 whenever the external square root is nonzero and squares back to the
column's population variance. -/
theorem C6_limix_restricts_and_standardizes {S G Cv : Type}
    (sq : ℚ → ℚ) (y : List (S × Option ℚ)) (x : List (G × (S → ℚ)))
    (m : Option (List (Cv × (S → ℚ)))) (kk : S → S → ℚ) (ai : Bool)
    (out : LimixCall S G Cv)
    (hok : lmm_association_limix sq y x m (some kk) ai = Except.ok out) :
    out.Y = dropnaS y
    ∧ out.X = x.map (fun gc =>
        (gc.1, zscore sq (((dropnaS y).map Prod.fst).map gc.2)))
    ∧ out.K = ((dropnaS y).map Prod.fst).map (fun i =>
        ((dropnaS y).map Prod.fst).map (fun j => kk i j))
    ∧ (∀ gc ∈ x,
        sq (varL (((dropnaS y).map Prod.fst).map gc.2)) ≠ 0 →
        sq (varL (((dropnaS y).map Prod.fst).map gc.2)) ^ 2
          = varL (((dropnaS y).map Prod.fst).map gc.2) →
        meanL (zscore sq (((dropnaS y).map Prod.fst).map gc.2)) = 0
          ∧ varL (zscore sq (((dropnaS y).map Prod.fst).map gc.2)) = 1)
    ∧ (∀ mm, m = some mm → ∀ cc ∈ mm,
        sq (varL (((dropnaS y).map Prod.fst).map cc.2)) ≠ 0 →
        sq (varL (((dropnaS y).map Prod.fst).map cc.2)) ^ 2
          = varL (((dropnaS y).map Prod.fst).map cc.2) →
        meanL (zscore sq (((dropnaS y).map Prod.fst).map cc.2)) = 0
          ∧ varL (zscore sq (((dropnaS y).map Prod.fst).map cc.2)) = 1) := by
  simp only [lmm_association_limix] at hok
  split at hok
  · exact absurd hok (by simp)
  · injection hok with h2
    subst h2
    refine ⟨rfl, rfl, rfl, ?_, ?_⟩
    · intro gc _ hs hsq
      exact ⟨meanL_zscore sq _, varL_zscore sq _ hs hsq⟩
    · intro mm _ cc _ hs hsq
      exact ⟨meanL_zscore sq _, varL_zscore sq _ hs hsq⟩

/-- C6 witness: the theorem at the concrete fixtures; the usable samples are
0 and 2, the response stays (1, 3), and the standardized design column has
mean 0 and variance 1. -/
theorem C6_witness :
    c6out.Y = dropnaS yFix
    ∧ meanL (zscore sqFix (((dropnaS yFix).map Prod.fst).map (fun s => (s : ℚ)))) = 0
    ∧ varL (zscore sqFix (((dropnaS yFix).map Prod.fst).map (fun s => (s : ℚ)))) = 1 := by
  have hok : lmm_association_limix sqFix yFix xFix (some mFix) (some kFix) true
      = Except.ok c6out := by
    unfold lmm_association_limix
    rw [if_neg (by decide)]
    rfl
  have h := C6_limix_restricts_and_standardizes sqFix yFix xFix (some mFix) kFix true
    c6out hok
  have hx := h.2.2.2.1 ("g", fun s => (s : ℚ)) (by simp [xFix])
    (by simp [dropnaS, yFix]; norm_num [varL, meanL, sqFix])
    (by simp [dropnaS, yFix]; norm_num [varL, meanL, sqFix])
  exact ⟨h.1, hx.1, hx.2⟩

/-- C7: the covariate matrix finally passed to the solver: with no `m` and an
intercept requested, a single all-ones `'intercept'` column over the usable
samples; with no `m` and no intercept, a single all-zeros `'zeros'` column;
with `m` supplied and an intercept requested, the standardized `m` columns
with the all-ones intercept column appended. -/
theorem C7_covariate_intercept_cases {S G Cv : Type}
    (sq : ℚ → ℚ) (y : List (S × Option ℚ)) (x : List (G × (S → ℚ)))
    (m : Option (List (Cv × (S → ℚ)))) (k : Option (S → S → ℚ)) (ai : Bool)
    (out : LimixCall S G Cv)
    (hok : lmm_association_limix sq y x m k ai = Except.ok out) :
    (m = none → ai = true →
      out.M = [(MLab.intercept, ((dropnaS y).map Prod.fst).map (fun _ => (1 : ℚ)))])
    ∧ (m = none → ai = false →
      out.M = [(MLab.zeros, ((dropnaS y).map Prod.fst).map (fun _ => (0 : ℚ)))])
    ∧ (∀ mm, m = some mm → ai = true →
      out.M = (mm.map (fun cc =>
          (MLab.cov cc.1, zscore sq (((dropnaS y).map Prod.fst).map cc.2))))
        ++ [(MLab.intercept, ((dropnaS y).map Prod.fst).map (fun _ => (1 : ℚ)))]) := by
  simp only [lmm_association_limix] at hok
  split at hok
  · exact absurd hok (by simp)
  · injection hok with h2
    subst h2
    refine ⟨?_, ?_, ?_⟩
    · rintro rfl rfl
      rfl
    · rintro rfl rfl
      rfl
    · rintro mm rfl rfl
      rfl

/-- C7 witness: with no covariate matrix and an intercept requested, the
solver receives the single all-ones intercept column over the two usable
samples. -/
theorem C7_witness :
    c7out.M = [(MLab.intercept, [(1 : ℚ), 1])] := by
  have hok : lmm_association_limix sqFix yFix xFix none (some kFix) true
      = Except.ok c7out := by
    unfold lmm_association_limix
    rw [if_neg (by decide)]
    rfl
  have h := (C7_covariate_intercept_cases sqFix yFix xFix none (some kFix) true c7out
    hok).1 rfl rfl
  rw [h]
  simp [dropnaS, yFix]

/-- C8: a response with zero usable samples after the missing-value
restriction makes the scan fail fatally with sklearn's zero-sample error;
no (empty) call record is produced. -/
theorem C8_zero_usable_samples_fatal {S G Cv : Type}
    (sq : ℚ → ℚ) (y : List (S × Option ℚ)) (x : List (G × (S → ℚ)))
    (m : Option (List (Cv × (S → ℚ)))) (k : Option (S → S → ℚ)) (ai : Bool)
    (h : dropnaS y = []) :
    lmm_association_limix sq y x m k ai
      = Except.error "Found array with 0 sample(s)" := by
  simp [lmm_association_limix, h]

/-- C8 witness: a series whose only entry is missing aborts the scan. -/
theorem C8_witness :
    lmm_association_limix (id : ℚ → ℚ) [((0 : ℕ), (none : Option ℚ))]
      ([] : List (String × (ℕ → ℚ))) (none : Option (List (String × (ℕ → ℚ))))
      (none : Option (ℕ → ℕ → ℚ)) true
      = Except.error "Found array with 0 sample(s)" :=
  C8_zero_usable_samples_fatal id _ _ _ _ _ rfl

/-- C4: every association processed by the robust check passed the FDR
cutoff and gets exactly two scans — drug outcome and gene outcome — that
share one kinship matrix, the normalized Gram matrix of the genomic-event
matrix restricted to the usable samples (those with a non-missing drug
response, over which the gene-effect row is totally defined); both scans
share the same design, containing exactly the genomic events with at least
`min_events` occurrences among those samples. -/
theorem C4_robust_two_scans_shared_kinship {S E D G : Type}
    (assocs : List (ARow D G × ℚ)) (fdr_thres : ℚ)
    (drespo : D → S → Option ℚ) (crispr : G → S → ℚ)
    (samples : List S) (events : List E) (x : E → S → ℚ) (min_events : ℕ)
    (r : (ARow D G × ℚ) × (RobustScan E × RobustScan E))
    (hr : r ∈ lmm_robust_association assocs fdr_thres drespo crispr samples events x
      min_events) :
    r.1.2 < fdr_thres
    ∧ r.2.1.K = r.2.2.K
    ∧ r.2.1.K = kinshipL ((samples.filter (fun s => (drespo r.1.1.drug s).isSome)).map
        (fun s => events.map (fun e => x e s)))
    ∧ r.2.1.X = r.2.2.X
    ∧ (∀ e, e ∈ r.2.1.X.map Prod.fst ↔ e ∈ events ∧ (min_events : ℚ)
        ≤ (((samples.filter (fun s => (drespo r.1.1.drug s).isSome)).map (x e)).sum))
    ∧ r.2.1.Yv = (samples.filter (fun s => (drespo r.1.1.drug s).isSome)).filterMap
        (drespo r.1.1.drug)
    ∧ r.2.2.Yv = (samples.filter (fun s => (drespo r.1.1.drug s).isSome)).map
        (crispr r.1.1.gene) := by
  unfold lmm_robust_association at hr
  obtain ⟨rr, hrr, rfl⟩ := List.mem_map.mp hr
  have hfdr : rr.2 < fdr_thres := by
    have := (List.mem_filter.mp hrr).2
    simpa using this
  refine ⟨hfdr, rfl, rfl, rfl, ?_, rfl, rfl⟩
  intro e
  unfold lmm_robust_single
  rw [List.map_map]
  constructor
  · intro he
    obtain ⟨e', he', hee⟩ := List.mem_map.mp he
    have hmem := List.mem_filter.mp he'
    have : e' = e := hee
    subst this
    exact ⟨hmem.1, by simpa using hmem.2⟩
  · rintro ⟨hmem, hcnt⟩
    apply List.mem_map.mpr
    refine ⟨e, List.mem_filter.mpr ⟨hmem, by simpa using hcnt⟩, rfl⟩

/-- C4 witness: the theorem at the concrete fixtures — the surviving
association's two scans share their kinship and design. -/
theorem C4_witness :
    c4row.2 < 1
    ∧ (lmm_robust_single (c4drespo c4row.1.drug) (c4crispr c4row.1.gene) [0, 1]
        ["e"] c4x 1).1.K
      = (lmm_robust_single (c4drespo c4row.1.drug) (c4crispr c4row.1.gene) [0, 1]
        ["e"] c4x 1).2.K := by
  have hr : (c4row, lmm_robust_single (c4drespo c4row.1.drug) (c4crispr c4row.1.gene)
      [0, 1] ["e"] c4x 1)
      ∈ lmm_robust_association [c4row] 1 c4drespo c4crispr [0, 1] ["e"] c4x 1 := by
    unfold lmm_robust_association
    have : c4row.2 < 1 := by norm_num [c4row]
    simp [this]
  have h := C4_robust_two_scans_shared_kinship [c4row] 1 c4drespo c4crispr [0, 1] ["e"]
    c4x 1 _ hr
  exact ⟨h.1, h.2.1⟩

/-- Helper: insertion keeps the list a permutation of the cons. -/
theorem insertSorted_perm {α : Type} (le : α → α → Bool) (a : α) :
    ∀ l : List α, (insertSorted le a l).Perm (a :: l) := by
  intro l
  induction l with
  | nil => exact List.Perm.refl _
  | cons b t ih =>
    unfold insertSorted
    by_cases h : le a b = true
    · rw [if_pos h]
    · rw [if_neg h]
      exact (ih.cons b).trans (List.Perm.swap a b t)

/-- Helper: sorting permutes. -/
theorem sortL_perm {α : Type} (le : α → α → Bool) :
    ∀ l : List α, (sortL le l).Perm l := by
  intro l
  induction l with
  | nil => exact List.Perm.refl _
  | cons a t ih =>
    unfold sortL
    exact (insertSorted_perm le a (sortL le t)).trans (ih.cons a)

/-- Helper: a successful sequential evaluation succeeds element-wise. -/
theorem mapME_ok_forall₂ {α β : Type} (f : α → Except String β) :
    ∀ (l : List α) (bs : List β), mapME f l = Except.ok bs →
      List.Forall₂ (fun a b => f a = Except.ok b) l bs := by
  intro l
  induction l with
  | nil =>
    intro bs h
    unfold mapME at h
    injection h with h2
    subst h2
    exact List.Forall₂.nil
  | cons a t ih =>
    intro bs h
    unfold mapME at h
    cases hfa : f a with
    | error e =>
      rw [hfa] at h
      exact absurd h (by simp)
    | ok b =>
      rw [hfa] at h
      cases hmt : mapME f t with
      | error e =>
        rw [hmt] at h
        exact absurd h (by simp)
      | ok bs2 =>
        rw [hmt] at h
        injection h with h2
        subst h2
        exact List.Forall₂.cons hfa (ih bs2 hmt)

/-- Helper: the design and response the solver receives on a successful
scan (shared by the C6 theorem's content and the single-association table
shape). -/
theorem limix_ok_fields {S G Cv : Type}
    (sq : ℚ → ℚ) (y : List (S × Option ℚ)) (x : List (G × (S → ℚ)))
    (m : Option (List (Cv × (S → ℚ)))) (k : Option (S → S → ℚ)) (ai : Bool)
    (out : LimixCall S G Cv)
    (hok : lmm_association_limix sq y x m k ai = Except.ok out) :
    out.X = x.map (fun gc =>
        (gc.1, zscore sq (((dropnaS y).map Prod.fst).map gc.2)))
    ∧ out.Y = dropnaS y := by
  simp only [lmm_association_limix] at hok
  split at hok
  · exact absurd hok (by simp)
  · injection hok with h2
    subst h2
    exact ⟨rfl, rfl⟩

/-- Helper: one drug's table has gene keys exactly the design columns, drug
constant, and sample counts bounded by the sample list. -/
theorem lmm_single_assoc_drug_fields {S G Cv D : Type}
    (sq : ℚ → ℚ) (scanf : LimixCall S G Cv → G → ℚ × ℚ)
    (samples : List S) (drespo : D → S → Option ℚ) (x : List (G × (S → ℚ)))
    (m : List (Cv × (S → ℚ))) (k : S → S → ℚ) (d : D) (tab : List (ARow D G))
    (h : lmm_single_assoc_drug sq scanf samples drespo x m k d = Except.ok tab) :
    tab.map (fun r => (r.drug, r.gene)) = (x.map Prod.fst).map (fun g => (d, g))
    ∧ ∀ r ∈ tab, r.n_samples ≤ samples.length := by
  unfold lmm_single_assoc_drug at h
  cases hcall : lmm_association_limix sq (samples.map (fun s => (s, drespo d s))) x
      (some m) (some k) true with
  | error e =>
    rw [hcall] at h
    exact absurd h (by simp [Except.map])
  | ok call =>
    rw [hcall] at h
    simp only [Except.map] at h
    injection h with h2
    subst h2
    obtain ⟨hX, hY⟩ := limix_ok_fields sq _ x (some m) (some k) true call hcall
    constructor
    · rw [List.map_map, hX, List.map_map, List.map_map]
      rfl
    · intro r hr
      obtain ⟨gc, _, rfl⟩ := List.mem_map.mp hr
      show call.Y.length ≤ samples.length
      rw [hY]
      unfold dropnaS
      calc ((samples.map (fun s => (s, drespo d s))).filterMap
              (fun sv => sv.2.map (fun v => (sv.1, v)))).length
          ≤ (samples.map (fun s => (s, drespo d s))).length :=
            List.length_filterMap_le _ _
        _ = samples.length := List.length_map _ _

/-- Helper: concatenated per-drug tables have duplicate-free (drug, gene)
keys, key drugs within the scanned drug list, and bounded sample counts. -/
theorem tables_flatten_facts {S G Cv D : Type}
    (sq : ℚ → ℚ) (scanf : LimixCall S G Cv → G → ℚ × ℚ)
    (samples : List S) (drespo : D → S → Option ℚ) (x : List (G × (S → ℚ)))
    (m : List (Cv × (S → ℚ))) (k : S → S → ℚ)
    (hndG : (x.map Prod.fst).Nodup) :
    ∀ (drugs : List D) (tables : List (List (ARow D G))),
      List.Forall₂ (fun d tab => lmm_single_assoc_drug sq scanf samples drespo x m k d
        = Except.ok tab) drugs tables →
      drugs.Nodup →
      ((tables.flatten.map (fun r => (r.drug, r.gene))).Nodup
        ∧ (∀ p ∈ tables.flatten.map (fun r => (r.drug, r.gene)), p.1 ∈ drugs)
        ∧ ∀ r ∈ tables.flatten, r.n_samples ≤ samples.length) := by
  intro drugs tables hF
  induction hF with
  | nil =>
    intro _
    exact ⟨by simp, by simp, by simp⟩
  | @cons d tab ds tabs hd htail ih =>
    intro hnd
    obtain ⟨hnd1, hnd2⟩ := List.nodup_cons.mp hnd
    obtain ⟨ihn, ihdr, ihb⟩ := ih hnd2
    obtain ⟨hkeys, hbd⟩ := lmm_single_assoc_drug_fields sq scanf samples drespo x m k d
      tab hd
    have hhead : ∀ p ∈ tab.map (fun r => (r.drug, r.gene)), p.1 = d := by
      intro p hp
      rw [hkeys] at hp
      obtain ⟨g, _, rfl⟩ := List.mem_map.mp hp
      rfl
    refine ⟨?_, ?_, ?_⟩
    · rw [List.flatten_cons, List.map_append]
      apply List.Nodup.append
      · rw [hkeys]
        exact hndG.map (fun a b hab => by simpa using hab)
      · exact ihn
      · intro p hp1 hp2
        have h1 : p.1 = d := hhead p hp1
        have h2 : p.1 ∈ ds := ihdr p hp2
        rw [h1] at h2
        exact hnd1 h2
    · intro p hp
      rw [List.flatten_cons, List.map_append] at hp
      rcases List.mem_append.mp hp with h | h
      · rw [hhead p h]
        exact List.mem_cons_self d ds
      · exact List.mem_cons_of_mem d (ihdr p h)
    · intro r hr
      rw [List.flatten_cons] at hr
      rcases List.mem_append.mp hr with h | h
      · exact hbd r h
      · exact ihb r h

/-- C9: a successful single-association run yields a table with
duplicate-free (drug identity, gene) keys in which every row's sample count
is bounded by the active sample intersection, for duplicate-free drug and
design-gene inputs and any length-preserving corrector. -/
theorem C9_unique_keys_and_sample_bound {S G Cv D : Type} [DecidableEq D]
    (sq : ℚ → ℚ) (scanf : LimixCall S G Cv → G → ℚ × ℚ)
    (corrector : List ℚ → List ℚ)
    (samples : List S) (drugs : List D) (drespo : D → S → Option ℚ)
    (x : List (G × (S → ℚ))) (m : List (Cv × (S → ℚ))) (k : S → S → ℚ)
    (dtargets : D → Option String) (annot : D → G → String)
    (hndD : drugs.Nodup) (hndG : (x.map Prod.fst).Nodup)
    (hlen : ∀ l, (corrector l).length = l.length)
    (res : List ((ARow D G × ℚ) × Option String × String))
    (hok : lmm_single_associations sq scanf corrector samples drugs drespo x m k
      dtargets annot = Except.ok res) :
    (res.map (fun t => (t.1.1.drug, t.1.1.gene))).Nodup
    ∧ ∀ t ∈ res, t.1.1.n_samples ≤ samples.length := by
  unfold lmm_single_associations at hok
  cases hm : mapME (lmm_single_assoc_drug sq scanf samples drespo x m k) drugs with
  | error e =>
    rw [hm] at hok
    exact absurd hok (by simp [Except.map])
  | ok tables =>
    rw [hm] at hok
    simp only [Except.map] at hok
    injection hok with h2
    subst h2
    have hF := mapME_ok_forall₂ (lmm_single_assoc_drug sq scanf samples drespo x m k)
      drugs tables hm
    obtain ⟨hn, hdr, hb⟩ := tables_flatten_facts sq scanf samples drespo x m k hndG
      drugs tables hF hndD
    have hperm1 : ((multipletests_per_drug (fun r => r.drug) (fun r => r.pval) corrector
        tables.flatten).map Prod.fst).Perm tables.flatten :=
      multipletests_per_drug_perm _ _ corrector hlen _
    have hpermS : (sortL (fun a b => a.1.2 < b.1.2 ∨ (a.1.2 = b.1.2
          ∧ a.1.1.pval ≤ b.1.1.pval))
        ((multipletests_per_drug (fun r => r.drug) (fun r => r.pval) corrector
            tables.flatten).map
          (fun rc => (rc, dtargets rc.1.drug, annot rc.1.drug rc.1.gene)))).Perm
        ((multipletests_per_drug (fun r => r.drug) (fun r => r.pval) corrector
            tables.flatten).map
          (fun rc => (rc, dtargets rc.1.drug, annot rc.1.drug rc.1.gene))) :=
      sortL_perm _ _
    constructor
    · have e1 : (((multipletests_per_drug (fun r => r.drug) (fun r => r.pval) corrector
            tables.flatten).map
          (fun rc => (rc, dtargets rc.1.drug, annot rc.1.drug rc.1.gene))).map
            (fun t => (t.1.1.drug, t.1.1.gene)))
          = (((multipletests_per_drug (fun r => r.drug) (fun r => r.pval) corrector
            tables.flatten).map Prod.fst).map (fun r => (r.drug, r.gene))) := by
        rw [List.map_map, List.map_map]
        rfl
      have hkperm := (hpermS.map (fun t => (t.1.1.drug, t.1.1.gene))).trans
        (e1 ▸ (hperm1.map (fun r : ARow D G => (r.drug, r.gene))))
      exact hkperm.nodup_iff.mpr hn
    · intro t ht
      have ht2 := hpermS.mem_iff.mp ht
      obtain ⟨rc, hrc, rfl⟩ := List.mem_map.mp ht2
      have : rc.1 ∈ tables.flatten :=
        hperm1.mem_iff.mp (List.mem_map_of_mem Prod.fst hrc)
      exact hb rc.1 this

/-- C9 witness: the theorem at the one-drug, one-gene fixtures — the
resulting table's (drug, gene) keys are duplicate-free. -/
theorem C9_witness :
    (c9res.map (fun t => (t.1.1.drug, t.1.1.gene))).Nodup := by
  have h1 : lmm_association_limix sqFix c9y xFix (some mFix) (some kFix) true
      = Except.ok c9call := by
    unfold lmm_association_limix
    rw [if_neg (by decide)]
    rfl
  have h2 : lmm_single_assoc_drug sqFix c9scanf c9samples c9drespo xFix mFix kFix 1
      = Except.ok c9tab := by
    unfold lmm_single_assoc_drug
    show (lmm_association_limix sqFix c9y xFix (some mFix) (some kFix) true).map _ = _
    rw [h1]
    rfl
  have h3 : mapME (lmm_single_assoc_drug sqFix c9scanf c9samples c9drespo xFix mFix kFix)
      [1] = Except.ok [c9tab] := by
    simp [mapME, h2]
  have h4 : lmm_single_associations sqFix c9scanf bonferroni c9samples [1] c9drespo
      xFix mFix kFix c9dt c9an = Except.ok c9res := by
    unfold lmm_single_associations
    rw [h3]
    rfl
  exact (C9_unique_keys_and_sample_bound sqFix c9scanf bonferroni c9samples [1] c9drespo
    xFix mFix kFix c9dt c9an (by decide) (by decide)
    (fun l => by simp [bonferroni]) c9res h4).1

end Dtrace
